import Mathlib

/-!
# Verification of the pg_bgzip BGZF block compressor

A shallow embedding of `src/pg.c`: the per-block encoder
`bgzip_compress_block`, the block-stream driver `pg_bgzip_compress`, and the
whole-buffer gzip path `pg_bgzip_gzip_compress`.

Byte buffers are `List Nat` (each element a byte value). The external
libdeflate primitive is out of scope of the repository and is modelled as an
abstract structure `DeflateLib`; the properties a conforming libdeflate
provides (output fits the capacity bound; raw-deflate/gzip output decompresses
back to the source) are collected in `DeflateLib.Conforming` and taken as
hypotheses where a theorem needs them.

Failure is explicit: `elog(ERROR, ...)` aborts the call and is modelled as
`Except.error`; `PG_RETURN_NULL()` is modelled as `Except.ok none`.
-/

/-- `#define BGZIP_BLOCK_SIZE 0xff00` -/
def BGZIP_BLOCK_SIZE : Nat := 0xff00

/-- `#define BGZIP_MAX_BLOCK_SIZE 0x10000` -/
def BGZIP_MAX_BLOCK_SIZE : Nat := 0x10000

/-- `#define BLOCK_HEADER_LENGTH 18` -/
def BLOCK_HEADER_LENGTH : Nat := 18

/-- `#define BLOCK_FOOTER_LENGTH 8` -/
def BLOCK_FOOTER_LENGTH : Nat := 8

/-- The 18 bytes of `g_magic` that are actually copied into a block header
(the C array holds 19 bytes, the final NUL is never used):
`"\037\213\010\4\0\0\0\0\0\377\6\0\102\103\2\0\0\0"`. -/
def gMagic : List Nat :=
  [0x1f, 0x8b, 0x08, 0x04, 0, 0, 0, 0, 0, 0xff, 0x06, 0, 0x42, 0x43, 0x02, 0, 0, 0]

/-- The fixed 28-byte `eof_marker` constant. -/
def eofMarker : List Nat :=
  [0x1f, 0x8b, 0x08, 0x04, 0, 0, 0, 0, 0, 0xff, 0x06, 0, 0x42, 0x43, 0x02, 0,
   0x1b, 0, 0x03, 0, 0, 0, 0, 0, 0, 0, 0, 0]

/-- `packInt16`: little-endian 2-byte encoding of a value truncated to
`uint16_t` (the C prototype takes `uint16_t value`, so a wider argument is
truncated modulo 2^16 before the bytes are taken). -/
def packInt16 (value : Nat) : List Nat :=
  [value % 256, value / 256 % 256]

/-- `packInt32`: little-endian 4-byte encoding of a value truncated to
`uint32_t`. -/
def packInt32 (value : Nat) : List Nat :=
  [value % 256, value / 256 % 256, value / 65536 % 256, value / 16777216 % 256]

/-- The little-endian integer value of a byte string (used to read the BSIZE,
CRC32 and ISIZE fields back out of an encoded block). -/
def leNat (bytes : List Nat) : Nat :=
  bytes.foldr (fun b acc => b + 256 * acc) 0

/-- The external libdeflate primitive, abstracted. `allocOk level` says
whether `libdeflate_alloc_compressor_ex(level, ...)` returns a non-null
compressor. `deflate level src cap` returns the raw-deflate encoding of
`src` into a buffer of capacity `cap`, with `[]` standing for the C return
value `0` (failure, including output that does not fit `cap`); likewise
`gzip` for `libdeflate_gzip_compress`. `crc32 src` is
`libdeflate_crc32(0, src, len)`. `inflate` and `gunzip` are a conforming
external decompressor used only to state round-trip properties. -/
structure DeflateLib where
  allocOk : Int → Bool
  deflate : Int → List Nat → Nat → List Nat
  gzip : Int → List Nat → Nat → List Nat
  crc32 : List Nat → Nat
  inflate : List Nat → Option (List Nat)
  gunzip : List Nat → Option (List Nat)

/-- The contract a conforming libdeflate (plus a conforming decompressor)
satisfies: compressed output never exceeds the capacity bound it was given,
and successful output decompresses back to the source buffer. -/
structure DeflateLib.Conforming (lib : DeflateLib) : Prop where
  deflate_le : ∀ level src cap, (lib.deflate level src cap).length ≤ cap
  deflate_inflate : ∀ level src cap, lib.deflate level src cap ≠ [] →
    lib.inflate (lib.deflate level src cap) = some src
  gzip_le : ∀ level src cap, (lib.gzip level src cap).length ≤ cap
  gzip_gunzip : ∀ level src cap, lib.gzip level src cap ≠ [] →
    lib.gunzip (lib.gzip level src cap) = some src

/-- `bgzip_compress_block(dst, &dlen, src, slen, level)`.

Returns `some block` (the bytes written to `dst`, of length the updated
`*dlen`) on return value `0`, and `none` on return value `-1`.

- `slen == 0`: the fixed 28-byte empty block is written (first 16 bytes of
  `g_magic`, then the fixed 12 tail bytes), provided `*dlen ≥ 28`.
- otherwise: allocate a compressor, raw-deflate `src` into
  `dst + 18` with bound `*dlen - 18 - 8`; on `clen == 0` fail; else the block
  is the 18-byte header (16 magic bytes, then BSIZE backpatched as
  `packInt16 (*dlen - 1)`), the payload, and the 8-byte footer
  (CRC32 of `src`, then `slen` as ISIZE). -/
def bgzip_compress_block (lib : DeflateLib) (dlen : Nat) (src : List Nat)
    (level : Int) : Option (List Nat) :=
  if src.length = 0 then
    if dlen < 28 then none
    else some (gMagic.take 16 ++ [0x1b, 0, 0x03, 0, 0, 0, 0, 0, 0, 0, 0, 0])
  else
    if lib.allocOk level then
      let payload := lib.deflate level src (dlen - BLOCK_HEADER_LENGTH - BLOCK_FOOTER_LENGTH)
      if payload.length = 0 then none
      else
        some (gMagic.take 16 ++
              packInt16 (payload.length + BLOCK_HEADER_LENGTH + BLOCK_FOOTER_LENGTH - 1) ++
              payload ++
              packInt32 (lib.crc32 src) ++
              packInt32 src.length)
    else none

/-- The errors raised with `elog(ERROR, ...)` by the two entry points. -/
inductive PgError where
  | invalidNumArgs (got : Nat)
  | nullArgs
  | invalidLevel (level : Int)
  | blockCompressError (position : Nat)
deriving DecidableEq, Repr

/-- The `while (in_size > 0)` loop of `pg_bgzip_compress`, returning the list
of blocks emitted, one per iteration (the C code concatenates them into the
growing `compressed` buffer; `List.flatten` recovers that concatenation). Each
iteration takes `isize = min(in_size, BGZIP_BLOCK_SIZE)` bytes, encodes them
with `bgzip_compress_block` into a fresh `BGZIP_MAX_BLOCK_SIZE`-byte region,
and on failure aborts with
`E("Error compressing the block at position %zu", in_size)` — note the
reported position is `in_size`, the bytes still unconsumed at that point. -/
def compressBlocksList (lib : DeflateLib) (level : Int) (input : List Nat) :
    Except PgError (List (List Nat)) :=
  if _h : input.length = 0 then .ok []
  else
    let isize := min input.length BGZIP_BLOCK_SIZE
    match bgzip_compress_block lib BGZIP_MAX_BLOCK_SIZE (input.take isize) level with
    | none => .error (.blockCompressError input.length)
    | some b =>
      match compressBlocksList lib level (input.drop isize) with
      | .error e => .error e
      | .ok bs => .ok (b :: bs)
termination_by input.length
decreasing_by
  simp only [List.length_drop]
  have h1 : 0 < BGZIP_BLOCK_SIZE := by decide
  omega

/-- The marshalled arguments of a call to `pg_bgzip_compress`: the argument
count reported by `PG_NARGS()`, and for each slot `none` when
`PG_ARGISNULL(i)` holds. -/
structure FCallArgs where
  nargs : Nat
  arg0 : Option (List Nat)
  arg1 : Option Int
  arg2 : Option Bool

/-- `Datum pg_bgzip_compress(PG_FUNCTION_ARGS)`.

`Except.error` models `elog(ERROR, ...)` (which aborts the call), and
`Except.ok (some bytes)` models returning a bytea. Argument-count and
null checks come first; a null third argument leaves `with_eof = false`;
levels outside `[-1, 9]` are rejected; then the block loop runs and the
EOF marker is appended when `with_eof` is set. -/
def pg_bgzip_compress (lib : DeflateLib) (a : FCallArgs) :
    Except PgError (Option (List Nat)) :=
  if a.nargs ≠ 2 ∧ a.nargs ≠ 3 then .error (.invalidNumArgs a.nargs)
  else
    match a.arg0, a.arg1 with
    | some input, some level =>
      let with_eof := if a.nargs = 3 then a.arg2.getD false else false
      if level < -1 ∨ level > 9 then .error (.invalidLevel level)
      else
        match compressBlocksList lib level input with
        | .error e => .error e
        | .ok bs => .ok (some (bs.flatten ++ if with_eof then eofMarker else []))
    | _, _ => .error .nullArgs

/-- `Datum pg_bgzip_gzip_compress(PG_FUNCTION_ARGS)`.

Null checks first, then the level check. The output buffer is sized
`ilen + 18 + 8`; on compressor-allocation failure or
`libdeflate_gzip_compress` returning `0`, control reaches `bailout:`, which
frees the buffer and executes `PG_RETURN_NULL()` — modelled as
`Except.ok none` (a SQL NULL result, not an error). -/
def pg_bgzip_gzip_compress (lib : DeflateLib) (arg0 : Option (List Nat))
    (arg1 : Option Int) : Except PgError (Option (List Nat)) :=
  match arg0, arg1 with
  | some input, some level =>
    if level < -1 ∨ level > 9 then .error (.invalidLevel level)
    else
      let dlen := input.length + BLOCK_HEADER_LENGTH + BLOCK_FOOTER_LENGTH
      if lib.allocOk level then
        let out := lib.gzip level input dlen
        if out.length = 0 then .ok none
        else .ok (some out)
      else .ok none
  | _, _ => .error .nullArgs

/-- Number of chunks the driver slices a buffer of `n` bytes into:
`ceil(n / 0xff00)`. -/
def chunkCount (n : Nat) : Nat := (n + BGZIP_BLOCK_SIZE - 1) / BGZIP_BLOCK_SIZE

/-- The `i`-th `0xff00`-byte slice of a buffer (the last one may be shorter). -/
def chunk (B : List Nat) (i : Nat) : List Nat :=
  (B.drop (i * BGZIP_BLOCK_SIZE)).take BGZIP_BLOCK_SIZE

/-- The raw-deflate payload of an encoded block: the bytes between the
18-byte header and the 8-byte footer. -/
def blockPayload (b : List Nat) : List Nat :=
  (b.drop BLOCK_HEADER_LENGTH).take (b.length - BLOCK_HEADER_LENGTH - BLOCK_FOOTER_LENGTH)

/-- A concrete conforming instance of the libdeflate model: "stored"
compression (deflate returns the source when it fits; gzip appends one byte
of framing), with a trivial decompressor. Used to instantiate theorems at
concrete inputs. -/
def storedLib : DeflateLib where
  allocOk := fun _ => true
  deflate := fun _ src cap => if src.length ≤ cap then src else []
  gzip := fun _ src cap => if src.length + 1 ≤ cap then src ++ [0] else []
  crc32 := fun src => src.length
  inflate := fun b => some b
  gunzip := fun b => some b.dropLast

/-- A libdeflate model whose raw-deflate always fails (returns `0`). -/
def failDeflateLib : DeflateLib :=
  { storedLib with deflate := fun _ _ _ => [] }

/-- A libdeflate model whose gzip compression always fails (returns `0`). -/
def failGzipLib : DeflateLib :=
  { storedLib with gzip := fun _ _ _ => [] }

/-! ## Helper lemmas -/

lemma leNat_packInt16 (v : Nat) : leNat (packInt16 v) = v % 65536 := by
  simp [leNat, packInt16]
  omega

lemma leNat_packInt32 (v : Nat) : leNat (packInt32 v) = v % 4294967296 := by
  simp [leNat, packInt32]
  omega

lemma gMagic16_length : (List.take 16 gMagic).length = 16 := rfl

lemma packInt16_length (v : Nat) : (packInt16 v).length = 2 := rfl

lemma packInt32_length (v : Nat) : (packInt32 v).length = 4 := rfl

lemma drop_head16 (xs : List Nat) : ((List.take 16 gMagic) ++ xs).drop 16 = xs :=
  List.drop_left' gMagic16_length

lemma drop_head18 (v : Nat) (xs : List Nat) :
    ((List.take 16 gMagic) ++ (packInt16 v ++ xs)).drop 18 = xs := by
  rw [show (18 : Nat) = (List.take 16 gMagic).length + 2 by rfl, List.drop_append 2,
    List.drop_left' (packInt16_length v)]

lemma drop_to_footer (v : Nat) (payload extra : List Nat) :
    ((List.take 16 gMagic) ++ (packInt16 v ++ (payload ++ extra))).drop (18 + payload.length) =
      extra := by
  rw [show 18 + payload.length = (List.take 16 gMagic).length + (2 + payload.length) by
        rw [gMagic16_length]; omega]
  rw [List.drop_append (2 + payload.length)]
  rw [show 2 + payload.length = (packInt16 v).length + payload.length by rfl]
  rw [List.drop_append payload.length]
  rw [List.drop_left]

/-- Shape of a successfully encoded non-empty block: header, payload and
footer fields recovered from the byte string. -/
lemma block_fields (lib : DeflateLib) (dlen : Nat) (src : List Nat) (level : Int)
    (b : List Nat) (hs : src ≠ [])
    (h : bgzip_compress_block lib dlen src level = some b) :
    ∃ payload : List Nat,
      payload = lib.deflate level src (dlen - BLOCK_HEADER_LENGTH - BLOCK_FOOTER_LENGTH) ∧
      payload ≠ [] ∧
      b.length = BLOCK_HEADER_LENGTH + payload.length + BLOCK_FOOTER_LENGTH ∧
      blockPayload b = payload ∧
      (b.drop 16).take 2 = packInt16 (b.length - 1) ∧
      b.drop (b.length - 8) = packInt32 (lib.crc32 src) ++ packInt32 src.length ∧
      b.drop (b.length - 4) = packInt32 src.length := by
  have hs0 : ¬ src.length = 0 := by simpa [List.length_eq_zero] using hs
  by_cases ha : lib.allocOk level
  case neg =>
    simp only [bgzip_compress_block, if_neg hs0, ha, Bool.false_eq_true, if_false] at h
    exact Option.noConfusion h
  case pos =>
    simp only [bgzip_compress_block, if_neg hs0, ha, if_true] at h
    obtain ⟨payload, hpay⟩ :
        ∃ p, p = lib.deflate level src (dlen - BLOCK_HEADER_LENGTH - BLOCK_FOOTER_LENGTH) :=
      ⟨_, rfl⟩
    rw [← hpay] at h
    by_cases hp : payload.length = 0
    · rw [if_pos hp] at h
      exact Option.noConfusion h
    · rw [if_neg hp] at h
      have hb := (Option.some.inj h).symm
      have hblen : b.length = BLOCK_HEADER_LENGTH + payload.length + BLOCK_FOOTER_LENGTH := by
        simp only [hb, List.length_append, packInt16_length, packInt32_length, gMagic16_length,
          BLOCK_HEADER_LENGTH, BLOCK_FOOTER_LENGTH]
      have hbsize : BLOCK_HEADER_LENGTH + payload.length + BLOCK_FOOTER_LENGTH - 1 =
          payload.length + BLOCK_HEADER_LENGTH + BLOCK_FOOTER_LENGTH - 1 := by
        simp only [BLOCK_HEADER_LENGTH, BLOCK_FOOTER_LENGTH]
        omega
      have hfoot : b.drop (b.length - 8) = packInt32 (lib.crc32 src) ++ packInt32 src.length := by
        rw [hblen, show BLOCK_HEADER_LENGTH + payload.length + BLOCK_FOOTER_LENGTH - 8 =
              18 + payload.length by simp only [BLOCK_HEADER_LENGTH, BLOCK_FOOTER_LENGTH]; omega]
        rw [hb, List.append_assoc, List.append_assoc, List.append_assoc]
        exact drop_to_footer _ payload _
      refine ⟨payload, hpay, fun hnil => hp (by simp [hnil]), hblen, ?_, ?_, hfoot, ?_⟩
      · -- blockPayload b = payload
        rw [blockPayload, hblen, show BLOCK_HEADER_LENGTH + payload.length +
              BLOCK_FOOTER_LENGTH - BLOCK_HEADER_LENGTH - BLOCK_FOOTER_LENGTH = payload.length by
            simp only [BLOCK_HEADER_LENGTH, BLOCK_FOOTER_LENGTH]; omega]
        rw [show BLOCK_HEADER_LENGTH = 18 by rfl]
        rw [hb, List.append_assoc, List.append_assoc, List.append_assoc]
        rw [drop_head18]
        exact List.take_left payload _
      · -- BSIZE field
        rw [hblen, hbsize, hb, List.append_assoc, List.append_assoc, List.append_assoc]
        rw [drop_head16]
        exact List.take_left' (packInt16_length _)
      · -- ISIZE field alone
        have h4 : b.drop (b.length - 4) = (b.drop (b.length - 8)).drop 4 := by
          rw [List.drop_drop]
          congr 1
          have : 26 ≤ b.length := by
            rw [hblen]; simp only [BLOCK_HEADER_LENGTH, BLOCK_FOOTER_LENGTH]; omega
          omega
        rw [h4, hfoot, List.drop_left' (packInt32_length _)]

lemma compressBlocksList_nil (lib : DeflateLib) (level : Int) :
    compressBlocksList lib level [] = .ok [] := by
  rw [compressBlocksList]
  rfl

lemma compressBlocksList_cons (lib : DeflateLib) (level : Int) (input : List Nat)
    (h : input ≠ []) :
    compressBlocksList lib level input =
      match bgzip_compress_block lib BGZIP_MAX_BLOCK_SIZE
          (input.take (min input.length BGZIP_BLOCK_SIZE)) level with
      | none => .error (.blockCompressError input.length)
      | some b =>
        match compressBlocksList lib level (input.drop (min input.length BGZIP_BLOCK_SIZE)) with
        | .error e => .error e
        | .ok bs => .ok (b :: bs) := by
  rw [compressBlocksList]
  rw [dif_neg (by simpa [List.length_eq_zero] using h)]

lemma chunkCount_zero : chunkCount 0 = 0 := by decide

lemma min_pos_of_ne_nil (input : List Nat) (h : input ≠ []) :
    0 < min input.length BGZIP_BLOCK_SIZE := by
  have : input.length ≠ 0 := by simpa [List.length_eq_zero] using h
  simp only [BGZIP_BLOCK_SIZE]
  omega

/-- The driver's `take isize` is `take BGZIP_BLOCK_SIZE`. -/
lemma take_isize (input : List Nat) :
    input.take (min input.length BGZIP_BLOCK_SIZE) = input.take BGZIP_BLOCK_SIZE := by
  rcases le_or_lt input.length BGZIP_BLOCK_SIZE with hle | hlt
  · rw [min_eq_left hle, List.take_length, List.take_of_length_le hle]
  · rw [min_eq_right (le_of_lt hlt)]

/-- The driver's `drop isize` is `drop BGZIP_BLOCK_SIZE`. -/
lemma drop_isize (input : List Nat) :
    input.drop (min input.length BGZIP_BLOCK_SIZE) = input.drop BGZIP_BLOCK_SIZE := by
  rcases le_or_lt input.length BGZIP_BLOCK_SIZE with hle | hlt
  · rw [min_eq_left hle, List.drop_length, List.drop_eq_nil_of_le hle]
  · rw [min_eq_right (le_of_lt hlt)]

/-- What a successful run of the block loop produces: one block per
`0xff00`-byte slice of the input, in order, each the image of its slice
under `bgzip_compress_block`. -/
lemma compressBlocksList_ok_spec (lib : DeflateLib) (level : Int) :
    ∀ (B : List Nat) (bs : List (List Nat)),
      compressBlocksList lib level B = .ok bs →
      bs.length = chunkCount B.length ∧
      ∀ i, (hi : i < bs.length) →
        bgzip_compress_block lib BGZIP_MAX_BLOCK_SIZE (chunk B i) level =
          some (bs.get ⟨i, hi⟩) := by
  suffices H : ∀ n (B : List Nat), B.length ≤ n → ∀ bs,
      compressBlocksList lib level B = .ok bs →
      bs.length = chunkCount B.length ∧
      ∀ i, (hi : i < bs.length) →
        bgzip_compress_block lib BGZIP_MAX_BLOCK_SIZE (chunk B i) level =
          some (bs.get ⟨i, hi⟩) by
    exact fun B => H B.length B le_rfl
  intro n
  induction n with
  | zero =>
    intro B hB bs h
    have : B = [] := List.length_eq_zero.mp (Nat.le_zero.mp hB)
    subst this
    rw [compressBlocksList_nil] at h
    obtain rfl : ([] : List (List Nat)) = bs := Except.ok.inj h
    exact ⟨by simp [chunkCount_zero], fun i hi => absurd hi (by simp)⟩
  | succ n ih =>
    intro B hB bs h
    by_cases hB0 : B = []
    · subst hB0
      rw [compressBlocksList_nil] at h
      obtain rfl : ([] : List (List Nat)) = bs := Except.ok.inj h
      exact ⟨by simp [chunkCount_zero], fun i hi => absurd hi (by simp)⟩
    · rw [compressBlocksList_cons lib level B hB0] at h
      rcases hblk : bgzip_compress_block lib BGZIP_MAX_BLOCK_SIZE
          (B.take (min B.length BGZIP_BLOCK_SIZE)) level with _ | b
      · rw [hblk] at h
        exact Except.noConfusion h
      rw [hblk] at h
      rcases hrest : compressBlocksList lib level (B.drop (min B.length BGZIP_BLOCK_SIZE))
          with e | bs'
      · rw [hrest] at h
        exact Except.noConfusion h
      rw [hrest] at h
      obtain rfl : b :: bs' = bs := Except.ok.inj h
      have hmin := min_pos_of_ne_nil B hB0
      have hdlen : (B.drop (min B.length BGZIP_BLOCK_SIZE)).length ≤ n := by
        simp only [List.length_drop]
        omega
      obtain ⟨ihlen, ihcorr⟩ := ih (B.drop (min B.length BGZIP_BLOCK_SIZE)) hdlen bs' hrest
      constructor
      · simp only [List.length_cons, ihlen, List.length_drop]
        have hBpos : B.length ≠ 0 := by simpa [List.length_eq_zero] using hB0
        simp only [chunkCount, BGZIP_BLOCK_SIZE]
        simp only [BGZIP_BLOCK_SIZE] at *
        omega
      · intro i hi
        match i with
        | 0 =>
          simp only [chunk, Nat.zero_mul, List.drop_zero, List.get]
          rw [← take_isize]
          exact hblk
        | (j : Nat) + 1 =>
          rcases le_or_lt B.length BGZIP_BLOCK_SIZE with hle | hlt
          · exfalso
            have : B.drop (min B.length BGZIP_BLOCK_SIZE) = [] := by
              rw [min_eq_left hle, List.drop_length]
            rw [this, compressBlocksList_nil] at hrest
            obtain rfl : ([] : List (List Nat)) = bs' := Except.ok.inj hrest
            simp at hi
          · have hj := ihcorr j (by simpa using hi)
            have hch : chunk (B.drop (min B.length BGZIP_BLOCK_SIZE)) j = chunk B (j + 1) := by
              rw [drop_isize, chunk, chunk, List.drop_drop]
              congr 2
              ring
            rw [hch] at hj
            simpa using hj

/-- Concatenating the decompressed payloads of a successful run's blocks, in
order, reproduces the input buffer. -/
lemma compressBlocksList_roundtrip (lib : DeflateLib) (hc : lib.Conforming) (level : Int) :
    ∀ (B : List Nat) (bs : List (List Nat)),
      compressBlocksList lib level B = .ok bs →
      (∀ b ∈ bs, (lib.inflate (blockPayload b)).isSome) ∧
      (bs.map fun b => (lib.inflate (blockPayload b)).getD []).flatten = B := by
  suffices H : ∀ n (B : List Nat), B.length ≤ n → ∀ bs,
      compressBlocksList lib level B = .ok bs →
      (∀ b ∈ bs, (lib.inflate (blockPayload b)).isSome) ∧
      (bs.map fun b => (lib.inflate (blockPayload b)).getD []).flatten = B by
    exact fun B => H B.length B le_rfl
  intro n
  induction n with
  | zero =>
    intro B hB bs h
    have : B = [] := List.length_eq_zero.mp (Nat.le_zero.mp hB)
    subst this
    rw [compressBlocksList_nil] at h
    obtain rfl : ([] : List (List Nat)) = bs := Except.ok.inj h
    simp
  | succ n ih =>
    intro B hB bs h
    by_cases hB0 : B = []
    · subst hB0
      rw [compressBlocksList_nil] at h
      obtain rfl : ([] : List (List Nat)) = bs := Except.ok.inj h
      simp
    · rw [compressBlocksList_cons lib level B hB0] at h
      rcases hblk : bgzip_compress_block lib BGZIP_MAX_BLOCK_SIZE
          (B.take (min B.length BGZIP_BLOCK_SIZE)) level with _ | b
      · rw [hblk] at h
        exact Except.noConfusion h
      rw [hblk] at h
      rcases hrest : compressBlocksList lib level (B.drop (min B.length BGZIP_BLOCK_SIZE))
          with e | bs'
      · rw [hrest] at h
        exact Except.noConfusion h
      rw [hrest] at h
      obtain rfl : b :: bs' = bs := Except.ok.inj h
      have hmin := min_pos_of_ne_nil B hB0
      have hBpos : B.length ≠ 0 := by simpa [List.length_eq_zero] using hB0
      have hdlen : (B.drop (min B.length BGZIP_BLOCK_SIZE)).length ≤ n := by
        simp only [List.length_drop]
        omega
      obtain ⟨ihsome, ihjoin⟩ := ih (B.drop (min B.length BGZIP_BLOCK_SIZE)) hdlen bs' hrest
      have hsrc : B.take (min B.length BGZIP_BLOCK_SIZE) ≠ [] := by
        intro hnil
        have := congrArg List.length hnil
        simp only [List.length_take, List.length_nil] at this
        omega
      obtain ⟨payload, hpay, hpne, _, hbp, _, _, _⟩ :=
        block_fields lib BGZIP_MAX_BLOCK_SIZE _ level b hsrc hblk
      have hinf : lib.inflate (blockPayload b) =
          some (B.take (min B.length BGZIP_BLOCK_SIZE)) := by
        rw [hbp, hpay]
        exact hc.deflate_inflate level _ _ (hpay ▸ hpne)
      constructor
      · intro blk hblk'
        rcases List.mem_cons.mp hblk' with rfl | hmem
        · simp [hinf]
        · exact ihsome blk hmem
      · simp only [List.map_cons, List.flatten_cons, hinf, Option.getD_some, ihjoin]
        exact List.take_append_drop _ B

/-- The only error the block loop can raise is `blockCompressError p`, where
`p` is the number of input bytes not yet consumed when the failing chunk was
attempted: the failing chunk starts at offset `B.length - p` (a multiple of
`BGZIP_BLOCK_SIZE`). -/
lemma compressBlocksList_error_spec (lib : DeflateLib) (level : Int) :
    ∀ (B : List Nat) (e : PgError),
      compressBlocksList lib level B = .error e →
      ∃ p off, e = .blockCompressError p ∧ 0 < p ∧ off % BGZIP_BLOCK_SIZE = 0 ∧
        off + p = B.length ∧
        bgzip_compress_block lib BGZIP_MAX_BLOCK_SIZE
          ((B.drop off).take (min p BGZIP_BLOCK_SIZE)) level = none := by
  suffices H : ∀ n (B : List Nat), B.length ≤ n → ∀ e,
      compressBlocksList lib level B = .error e →
      ∃ p off, e = .blockCompressError p ∧ 0 < p ∧ off % BGZIP_BLOCK_SIZE = 0 ∧
        off + p = B.length ∧
        bgzip_compress_block lib BGZIP_MAX_BLOCK_SIZE
          ((B.drop off).take (min p BGZIP_BLOCK_SIZE)) level = none by
    exact fun B => H B.length B le_rfl
  intro n
  induction n with
  | zero =>
    intro B hB e h
    have : B = [] := List.length_eq_zero.mp (Nat.le_zero.mp hB)
    subst this
    rw [compressBlocksList_nil] at h
    exact Except.noConfusion h
  | succ n ih =>
    intro B hB e h
    by_cases hB0 : B = []
    · subst hB0
      rw [compressBlocksList_nil] at h
      exact Except.noConfusion h
    · rw [compressBlocksList_cons lib level B hB0] at h
      have hBpos : B.length ≠ 0 := by simpa [List.length_eq_zero] using hB0
      rcases hblk : bgzip_compress_block lib BGZIP_MAX_BLOCK_SIZE
          (B.take (min B.length BGZIP_BLOCK_SIZE)) level with _ | b
      · rw [hblk] at h
        obtain rfl : PgError.blockCompressError B.length = e := by
          exact (Except.error.inj h)
        refine ⟨B.length, 0, rfl, by omega, by simp, by omega, ?_⟩
        rw [List.drop_zero]
        exact hblk
      · rw [hblk] at h
        rcases hrest : compressBlocksList lib level (B.drop (min B.length BGZIP_BLOCK_SIZE))
            with e' | bs'
        swap
        · rw [hrest] at h
          exact Except.noConfusion h
        rw [hrest] at h
        obtain rfl : e' = e := Except.error.inj h
        have hmin := min_pos_of_ne_nil B hB0
        have hdlen : (B.drop (min B.length BGZIP_BLOCK_SIZE)).length ≤ n := by
          simp only [List.length_drop]
          omega
        obtain ⟨p, off, rfl, hp, hoff, hsum, hfail⟩ :=
          ih (B.drop (min B.length BGZIP_BLOCK_SIZE)) hdlen e' hrest
        rcases le_or_lt B.length BGZIP_BLOCK_SIZE with hle | hlt
        · exfalso
          have : B.drop (min B.length BGZIP_BLOCK_SIZE) = [] := by
            rw [min_eq_left hle, List.drop_length]
          rw [this, compressBlocksList_nil] at hrest
          exact Except.noConfusion hrest
        · have hisz : min B.length BGZIP_BLOCK_SIZE = BGZIP_BLOCK_SIZE :=
            min_eq_right (le_of_lt hlt)
          rw [hisz] at hsum hfail
          simp only [List.length_drop] at hsum
          refine ⟨p, BGZIP_BLOCK_SIZE + off, rfl, hp, ?_, ?_, ?_⟩
          · simp only [BGZIP_BLOCK_SIZE] at hoff ⊢
            omega
          · simp only [BGZIP_BLOCK_SIZE] at hsum hlt ⊢
            omega
          · rw [← List.drop_drop]
            exact hfail

/-- `storedLib` satisfies the libdeflate contract. -/
lemma storedLib_conforming : storedLib.Conforming := by
  constructor
  · intro level src cap
    by_cases h : src.length ≤ cap <;> simp [storedLib, h]
  · intro level src cap hne
    by_cases h : src.length ≤ cap <;> simp [storedLib, h] at hne ⊢
  · intro level src cap
    by_cases h : src.length + 1 ≤ cap <;> simp [storedLib, h]
  · intro level src cap hne
    by_cases h : src.length + 1 ≤ cap <;> simp [storedLib, h] at hne ⊢

/-- With `storedLib` every chunk of legal size compresses successfully. -/
lemma bgzip_block_storedLib (src : List Nat) (level : Int) (hs : ¬ src.length = 0)
    (hlen : src.length ≤ 65510) :
    bgzip_compress_block storedLib BGZIP_MAX_BLOCK_SIZE src level =
      some (gMagic.take 16 ++
        packInt16 (src.length + BLOCK_HEADER_LENGTH + BLOCK_FOOTER_LENGTH - 1) ++
        src ++ packInt32 src.length ++ packInt32 src.length) := by
  have hcap : src.length ≤ BGZIP_MAX_BLOCK_SIZE - BLOCK_HEADER_LENGTH - BLOCK_FOOTER_LENGTH := by
    simp only [BGZIP_MAX_BLOCK_SIZE, BLOCK_HEADER_LENGTH, BLOCK_FOOTER_LENGTH]
    omega
  simp only [bgzip_compress_block, if_neg hs, storedLib, if_pos hcap, if_neg hs, if_true]

/-- With `storedLib` the block loop always succeeds. -/
lemma storedLib_ok (level : Int) :
    ∀ B : List Nat, ∃ bs, compressBlocksList storedLib level B = .ok bs := by
  suffices H : ∀ n (B : List Nat), B.length ≤ n →
      ∃ bs, compressBlocksList storedLib level B = .ok bs by
    exact fun B => H B.length B le_rfl
  intro n
  induction n with
  | zero =>
    intro B hB
    have : B = [] := List.length_eq_zero.mp (Nat.le_zero.mp hB)
    subst this
    exact ⟨[], compressBlocksList_nil _ _⟩
  | succ n ih =>
    intro B hB
    by_cases hB0 : B = []
    · subst hB0
      exact ⟨[], compressBlocksList_nil _ _⟩
    · have hBpos : B.length ≠ 0 := by simpa [List.length_eq_zero] using hB0
      have hmin := min_pos_of_ne_nil B hB0
      have hs : ¬ (B.take (min B.length BGZIP_BLOCK_SIZE)).length = 0 := by
        simp only [List.length_take]
        omega
      have hlen : (B.take (min B.length BGZIP_BLOCK_SIZE)).length ≤ 65510 := by
        simp only [List.length_take, BGZIP_BLOCK_SIZE]
        omega
      obtain ⟨bs', hbs'⟩ := ih (B.drop (min B.length BGZIP_BLOCK_SIZE))
        (by simp only [List.length_drop]; omega)
      apply Exists.intro
      rw [compressBlocksList_cons storedLib level B hB0,
        bgzip_block_storedLib _ level hs hlen, hbs']

/-- Every chunk the driver actually encodes is non-empty. -/
lemma chunk_ne_nil (B : List Nat) (i : Nat) (hi : i < chunkCount B.length) :
    chunk B i ≠ [] := by
  intro hnil
  have hlen := congrArg List.length hnil
  simp only [chunk, List.length_take, List.length_drop, List.length_nil] at hlen
  simp only [chunkCount, BGZIP_BLOCK_SIZE] at hi hlen
  omega

/-- Evaluation rule for a one-chunk input. -/
lemma compressBlocksList_single (lib : DeflateLib) (L : Int) (B : List Nat)
    (h0 : B ≠ []) (h1 : B.length ≤ BGZIP_BLOCK_SIZE) (b : List Nat)
    (hb : bgzip_compress_block lib BGZIP_MAX_BLOCK_SIZE B L = some b) :
    compressBlocksList lib L B = .ok [b] := by
  rw [compressBlocksList_cons lib L B h0, min_eq_left h1, List.take_length,
    List.drop_length, hb, compressBlocksList_nil]

/-! ## The claims -/

/-- C5: the output of `compress_blocked(B, L, true)` is exactly the output of
`compress_blocked(B, L, false)` with the fixed 28-byte EOF marker appended
(so the marker, when present, is the final bytes and is appended exactly
once); errors are unaffected by the flag. -/
theorem C5_eof_append (lib : DeflateLib) (B : List Nat) (L : Int) :
    pg_bgzip_compress lib ⟨3, some B, some L, some true⟩ =
      Except.map (Option.map (fun o => o ++ eofMarker))
        (pg_bgzip_compress lib ⟨3, some B, some L, some false⟩) := by
  by_cases hL : L < -1 ∨ L > 9
  · simp [pg_bgzip_compress, hL, Except.map]
  · simp only [pg_bgzip_compress, hL, if_false]
    norm_num
    cases h : compressBlocksList lib L B <;> simp [Except.map]

/-- C10: a SQL NULL third argument is accepted and behaves exactly like an
explicit `false` (and like omitting the argument altogether); in particular
it is not rejected the way a null required buffer argument is. -/
theorem C10_null_eof_arg (lib : DeflateLib) (B : List Nat) (L : Int) :
    pg_bgzip_compress lib ⟨3, some B, some L, none⟩ =
      pg_bgzip_compress lib ⟨3, some B, some L, some false⟩ ∧
    pg_bgzip_compress lib ⟨3, some B, some L, none⟩ =
      pg_bgzip_compress lib ⟨2, some B, some L, none⟩ ∧
    pg_bgzip_compress lib ⟨3, some B, some L, none⟩ ≠ .error PgError.nullArgs := by
  refine ⟨by simp [pg_bgzip_compress], by simp [pg_bgzip_compress], ?_⟩
  by_cases hL : L < -1 ∨ L > 9
  · simp [pg_bgzip_compress, hL]
  · simp only [pg_bgzip_compress, hL, if_false]
    norm_num
    cases h : compressBlocksList lib L B with
    | error e =>
      obtain ⟨p, off, rfl, _, _, _, _⟩ := compressBlocksList_error_spec lib L B e h
      simp
    | ok bs => simp

/-- With the stored model the gzip path always succeeds for a valid level. -/
lemma storedLib_gzip_ok (B : List Nat) (L : Int) (hL : ¬(L < -1 ∨ L > 9)) :
    pg_bgzip_gzip_compress storedLib (some B) (some L) = .ok (some (B ++ [0])) := by
  have hg : storedLib.gzip L B (B.length + BLOCK_HEADER_LENGTH + BLOCK_FOOTER_LENGTH) =
      B ++ [0] := by
    simp only [storedLib, BLOCK_HEADER_LENGTH, BLOCK_FOOTER_LENGTH]
    rw [if_pos (by omega)]
  simp only [pg_bgzip_gzip_compress, hL, if_false, storedLib, hg]
  simp [storedLib] at hg
  simp [hg]

/-- C9: for both entry points, an out-of-domain level or a null required
buffer argument is rejected with an error before any compression work (no
output is produced, the result being an error); levels `-1` and `6` are both
accepted (shown for the stored model of the primitive). -/
theorem C9_invalid_arguments (lib : DeflateLib) (B : List Nat) (L : Int) :
    ((L < -1 ∨ L > 9) →
      pg_bgzip_compress lib ⟨2, some B, some L, none⟩ = .error (.invalidLevel L) ∧
      pg_bgzip_gzip_compress lib (some B) (some L) = .error (.invalidLevel L)) ∧
    pg_bgzip_compress lib ⟨2, none, some L, none⟩ = .error .nullArgs ∧
    pg_bgzip_compress lib ⟨2, some B, none, none⟩ = .error .nullArgs ∧
    pg_bgzip_gzip_compress lib none (some L) = .error .nullArgs ∧
    pg_bgzip_gzip_compress lib (some B) none = .error .nullArgs ∧
    (∃ o, pg_bgzip_compress storedLib ⟨2, some B, some (-1), none⟩ = .ok (some o)) ∧
    (∃ o, pg_bgzip_compress storedLib ⟨2, some B, some 6, none⟩ = .ok (some o)) ∧
    (∃ o, pg_bgzip_gzip_compress storedLib (some B) (some (-1)) = .ok (some o)) ∧
    (∃ o, pg_bgzip_gzip_compress storedLib (some B) (some 6) = .ok (some o)) := by
  refine ⟨fun hL => ⟨by simp [pg_bgzip_compress, hL], by simp [pg_bgzip_gzip_compress, hL]⟩,
    by simp [pg_bgzip_compress], by simp [pg_bgzip_compress],
    by simp [pg_bgzip_gzip_compress], by simp [pg_bgzip_gzip_compress], ?_, ?_, ?_, ?_⟩
  · obtain ⟨bs, hbs⟩ := storedLib_ok (-1) B
    exact ⟨bs.flatten, by simp [pg_bgzip_compress, hbs]⟩
  · obtain ⟨bs, hbs⟩ := storedLib_ok 6 B
    exact ⟨bs.flatten, by simp [pg_bgzip_compress, hbs]⟩
  · exact ⟨B ++ [0], storedLib_gzip_ok B (-1) (by decide)⟩
  · exact ⟨B ++ [0], storedLib_gzip_ok B 6 (by decide)⟩

/-- C9 witness: the theorem applied at the concrete rejected level `10` and
buffer `[5]`. -/
theorem C9_invalid_arguments_witness :
    pg_bgzip_compress storedLib ⟨2, some [5], some 10, none⟩ =
      .error (.invalidLevel 10) ∧
    pg_bgzip_gzip_compress storedLib (some [5]) (some 10) =
      .error (.invalidLevel 10) :=
  (C9_invalid_arguments storedLib [5] 10).1 (by decide)

/-- C2: a successful run of `compress_blocked(B, L, false)` emits exactly
`ceil(len(B) / 0xff00)` data blocks, the `i`-th being the block encoding of
the `i`-th `0xff00`-byte slice of `B`, in source order; an empty input yields
zero blocks and a zero-length output. -/
theorem C2_block_count (lib : DeflateLib) (L : Int) (B : List Nat)
    (bs : List (List Nat)) (h : compressBlocksList lib L B = .ok bs) :
    bs.length = chunkCount B.length ∧
    (∀ i, (hi : i < bs.length) →
      bgzip_compress_block lib BGZIP_MAX_BLOCK_SIZE (chunk B i) L =
        some (bs.get ⟨i, hi⟩)) ∧
    (B = [] → bs = []) ∧
    (B = [] → ¬(L < -1 ∨ L > 9) →
      pg_bgzip_compress lib ⟨2, some B, some L, none⟩ = .ok (some [])) := by
  obtain ⟨h1, h2⟩ := compressBlocksList_ok_spec lib L B bs h
  refine ⟨h1, h2, ?_, ?_⟩
  · rintro rfl
    rw [compressBlocksList_nil] at h
    exact (Except.ok.inj h).symm
  · rintro rfl hL
    simp [pg_bgzip_compress, hL, compressBlocksList_nil]

/-- C2 witness: the single-chunk input `[7]` at level 6 under the stored
model gives one block, matching `chunkCount 1 = 1`. -/
theorem C2_block_count_witness :
    ∃ bs : List (List Nat), compressBlocksList storedLib 6 [7] = .ok bs ∧
      bs.length = chunkCount 1 := by
  have hb : bgzip_compress_block storedLib BGZIP_MAX_BLOCK_SIZE [7] 6 =
      some (gMagic.take 16 ++ packInt16 26 ++ [7] ++ packInt32 1 ++ packInt32 1) := by
    decide
  have h := compressBlocksList_single storedLib 6 [7] (by decide) (by decide) _ hb
  exact ⟨_, h, (C2_block_count storedLib 6 [7] _ h).1⟩

/-- C3: every emitted data block has total length `18 + payload_len + 8`,
never exceeding `0x10000`, and its 2-byte little-endian BSIZE field at
header offset 16 holds the block length minus one. -/
theorem C3_bsize_invariant (lib : DeflateLib) (hc : lib.Conforming) (L : Int)
    (B : List Nat) (bs : List (List Nat)) (h : compressBlocksList lib L B = .ok bs) :
    ∀ b ∈ bs, ∃ payload_len : Nat,
      b.length = 18 + payload_len + 8 ∧
      18 + payload_len + 8 ≤ 0x10000 ∧
      leNat ((b.drop 16).take 2) = b.length - 1 := by
  intro b hmem
  obtain ⟨hlen, hcorr⟩ := compressBlocksList_ok_spec lib L B bs h
  obtain ⟨⟨i, hi⟩, rfl⟩ := List.mem_iff_get.mp hmem
  have hch := hcorr i hi
  have hne : chunk B i ≠ [] := chunk_ne_nil B i (hlen ▸ hi)
  obtain ⟨payload, hpay, hpne, hblen, _, hbsize, _, _⟩ :=
    block_fields lib BGZIP_MAX_BLOCK_SIZE (chunk B i) L _ hne hch
  have hple : payload.length ≤ 65510 := by
    have := hc.deflate_le L (chunk B i)
      (BGZIP_MAX_BLOCK_SIZE - BLOCK_HEADER_LENGTH - BLOCK_FOOTER_LENGTH)
    rw [← hpay] at this
    simpa [BGZIP_MAX_BLOCK_SIZE, BLOCK_HEADER_LENGTH, BLOCK_FOOTER_LENGTH] using this
  simp only [BLOCK_HEADER_LENGTH, BLOCK_FOOTER_LENGTH] at hblen
  refine ⟨payload.length, by omega, by omega, ?_⟩
  rw [hbsize, leNat_packInt16]
  omega

/-- C3 witness: the theorem applied to the one-block run on `[7]`, level 6,
stored model, at its block. -/
theorem C3_bsize_invariant_witness :
    ∃ payload_len : Nat,
      (gMagic.take 16 ++ packInt16 26 ++ [7] ++ packInt32 1 ++ packInt32 1).length =
        18 + payload_len + 8 ∧
      18 + payload_len + 8 ≤ 0x10000 ∧
      leNat (((gMagic.take 16 ++ packInt16 26 ++ [7] ++ packInt32 1 ++
        packInt32 1).drop 16).take 2) =
        (gMagic.take 16 ++ packInt16 26 ++ [7] ++ packInt32 1 ++ packInt32 1).length - 1 := by
  have hb : bgzip_compress_block storedLib BGZIP_MAX_BLOCK_SIZE [7] 6 =
      some (gMagic.take 16 ++ packInt16 26 ++ [7] ++ packInt32 1 ++ packInt32 1) := by
    decide
  have h := compressBlocksList_single storedLib 6 [7] (by decide) (by decide) _ hb
  exact C3_bsize_invariant storedLib storedLib_conforming 6 [7] _ h _ (by simp)

/-- C4: every emitted data block carries, as its 4 little-endian bytes at
offset `len − 8`, the primitive's CRC32 of the corresponding original chunk,
and, at offset `len − 4`, the chunk's length modulo `2^32`. -/
theorem C4_footer_fields (lib : DeflateLib) (L : Int) (B : List Nat)
    (bs : List (List Nat)) (h : compressBlocksList lib L B = .ok bs) :
    ∀ i, (hi : i < bs.length) →
      leNat (((bs.get ⟨i, hi⟩).drop ((bs.get ⟨i, hi⟩).length - 8)).take 4) =
        lib.crc32 (chunk B i) % 4294967296 ∧
      leNat ((bs.get ⟨i, hi⟩).drop ((bs.get ⟨i, hi⟩).length - 4)) =
        (chunk B i).length % 4294967296 := by
  intro i hi
  obtain ⟨hlen, hcorr⟩ := compressBlocksList_ok_spec lib L B bs h
  have hch := hcorr i hi
  have hne : chunk B i ≠ [] := chunk_ne_nil B i (hlen ▸ hi)
  obtain ⟨payload, _, _, _, _, _, hfoot, hisize⟩ :=
    block_fields lib BGZIP_MAX_BLOCK_SIZE (chunk B i) L _ hne hch
  constructor
  · rw [hfoot, List.take_left' (packInt32_length _), leNat_packInt32]
  · rw [hisize, leNat_packInt32]

/-- C4 witness: the theorem applied to the one-block run on `[9]`, level 6,
stored model, at block index 0. -/
theorem C4_footer_fields_witness :
    leNat (((([(gMagic.take 16 ++ packInt16 26 ++ [9] ++ packInt32 1 ++ packInt32 1)] :
        List (List Nat)).get ⟨0, by simp⟩).drop
        ((([(gMagic.take 16 ++ packInt16 26 ++ [9] ++ packInt32 1 ++ packInt32 1)] :
        List (List Nat)).get ⟨0, by simp⟩).length - 8)).take 4) =
      storedLib.crc32 (chunk [9] 0) % 4294967296 ∧
    leNat ((([(gMagic.take 16 ++ packInt16 26 ++ [9] ++ packInt32 1 ++ packInt32 1)] :
        List (List Nat)).get ⟨0, by simp⟩).drop
        ((([(gMagic.take 16 ++ packInt16 26 ++ [9] ++ packInt32 1 ++ packInt32 1)] :
        List (List Nat)).get ⟨0, by simp⟩).length - 4)) =
      (chunk [9] 0).length % 4294967296 := by
  have hb : bgzip_compress_block storedLib BGZIP_MAX_BLOCK_SIZE [9] 6 =
      some (gMagic.take 16 ++ packInt16 26 ++ [9] ++ packInt32 1 ++ packInt32 1) := by
    decide
  have h := compressBlocksList_single storedLib 6 [9] (by decide) (by decide) _ hb
  exact C4_footer_fields storedLib 6 [9] _ h 0 (by simp)

/-- C1: whenever `compress_blocked(B, L, false)` succeeds, its output is the
concatenation of the emitted data blocks, each block's raw-deflate payload
decompresses (by the conforming decompressor) successfully, and
concatenating the decompressed payloads in order yields exactly `B`. -/
theorem C1_roundtrip (lib : DeflateLib) (hc : lib.Conforming) (L : Int) (B : List Nat)
    (bs : List (List Nat)) (out : List Nat)
    (hok : pg_bgzip_compress lib ⟨2, some B, some L, none⟩ = .ok (some out))
    (hbs : compressBlocksList lib L B = .ok bs) :
    out = bs.flatten ∧
    (∀ b ∈ bs, (lib.inflate (blockPayload b)).isSome) ∧
    (bs.map fun b => (lib.inflate (blockPayload b)).getD []).flatten = B := by
  obtain ⟨hsome, hjoin⟩ := compressBlocksList_roundtrip lib hc L B bs hbs
  refine ⟨?_, hsome, hjoin⟩
  by_cases hL : L < -1 ∨ L > 9
  · simp [pg_bgzip_compress, hL] at hok
  · simp only [pg_bgzip_compress, hL, if_false] at hok
    norm_num at hok
    rw [hbs] at hok
    simp at hok
    exact hok.symm

/-- C1 witness: the one-block run on `[7]` at level 6 under the stored model
decompresses back to `[7]`. -/
theorem C1_roundtrip_witness :
    (([gMagic.take 16 ++ packInt16 26 ++ [7] ++ packInt32 1 ++ packInt32 1] :
        List (List Nat)).map
      fun b => (storedLib.inflate (blockPayload b)).getD []).flatten = [7] := by
  have hb : bgzip_compress_block storedLib BGZIP_MAX_BLOCK_SIZE [7] 6 =
      some (gMagic.take 16 ++ packInt16 26 ++ [7] ++ packInt32 1 ++ packInt32 1) := by
    decide
  have h := compressBlocksList_single storedLib 6 [7] (by decide) (by decide) _ hb
  have hok : pg_bgzip_compress storedLib ⟨2, some [7], some 6, none⟩ =
      .ok (some (gMagic.take 16 ++ packInt16 26 ++ [7] ++ packInt32 1 ++ packInt32 1)) := by
    simp [pg_bgzip_compress, h]
  exact (C1_roundtrip storedLib storedLib_conforming 6 [7] _ _ hok h).2.2

/-- C6: when the primitive honours its bound guarantee (gzip output of any
buffer fits in `len + 18 + 8` bytes, as the code's comment asserts of
libdeflate) and compressor allocation succeeds, `compress_gzip(B, L)`
succeeds for every buffer `B` (including the empty one) and every accepted
level, and the output decompresses to exactly `B`. -/
theorem C6_gzip_roundtrip (lib : DeflateLib) (hc : lib.Conforming)
    (halloc : ∀ l : Int, lib.allocOk l = true)
    (hbound : ∀ (l : Int) (s : List Nat),
      lib.gzip l s (s.length + BLOCK_HEADER_LENGTH + BLOCK_FOOTER_LENGTH) ≠ [])
    (L : Int) (B : List Nat) (hL : ¬(L < -1 ∨ L > 9)) :
    ∃ out, pg_bgzip_gzip_compress lib (some B) (some L) = .ok (some out) ∧
      lib.gunzip out = some B := by
  have hgz := hbound L B
  have hlen : (lib.gzip L B (B.length + BLOCK_HEADER_LENGTH + BLOCK_FOOTER_LENGTH)).length ≠ 0 := by
    simpa [List.length_eq_zero] using hgz
  have heq : pg_bgzip_gzip_compress lib (some B) (some L) =
      .ok (some (lib.gzip L B (B.length + BLOCK_HEADER_LENGTH + BLOCK_FOOTER_LENGTH))) := by
    simp [pg_bgzip_gzip_compress, hL, halloc L, hlen]
  exact ⟨_, heq, hc.gzip_gunzip L B _ hgz⟩

/-- C6 witness: the theorem applied to the stored model at `B = [1, 2]`,
level 6 (the stored gzip always fits the bound). -/
theorem C6_gzip_roundtrip_witness :
    ∃ out, pg_bgzip_gzip_compress storedLib (some [1, 2]) (some 6) = .ok (some out) ∧
      storedLib.gunzip out = some [1, 2] :=
  C6_gzip_roundtrip storedLib storedLib_conforming (fun _ => rfl)
    (fun l s => by
      simp only [storedLib, BLOCK_HEADER_LENGTH, BLOCK_FOOTER_LENGTH]
      rw [if_pos (by omega)]
      simp)
    6 [1, 2] (by decide)

/-- C7 counterexample: with a primitive whose gzip compression fails, the
whole-buffer path does **not** fail with an error — it returns SQL NULL
(`Except.ok none`), contradicting the claim that a CompressionFailure error
is raised. -/
theorem C7_counterexample :
    pg_bgzip_gzip_compress failGzipLib (some [7]) (some 6) = .ok none ∧
    ∀ e : PgError, pg_bgzip_gzip_compress failGzipLib (some [7]) (some 6) ≠ .error e := by
  have h : pg_bgzip_gzip_compress failGzipLib (some [7]) (some 6) = .ok none := by rfl
  refine ⟨h, fun e he => ?_⟩
  rw [h] at he
  exact Except.noConfusion he

/-- C7 amended: when the whole-buffer gzip path's primitive fails
(compressor allocation returns null, or gzip compression reports zero
output), the call returns SQL NULL — the output buffer is released and no
truncated or partial output is ever returned; the failure is signalled by
the NULL result (plus a logged warning), not by raising an error. -/
theorem C7_amended_null_return (lib : DeflateLib) (B : List Nat) (L : Int)
    (hL : ¬(L < -1 ∨ L > 9))
    (hfail : lib.allocOk L = false ∨
      lib.gzip L B (B.length + BLOCK_HEADER_LENGTH + BLOCK_FOOTER_LENGTH) = []) :
    pg_bgzip_gzip_compress lib (some B) (some L) = .ok none := by
  by_cases ha : lib.allocOk L
  · rcases hfail with hf | hf
    · rw [ha] at hf
      exact Bool.noConfusion hf
    · simp [pg_bgzip_gzip_compress, hL, ha, hf]
  · simp [pg_bgzip_gzip_compress, hL, ha]

/-- C7 witness: the amended theorem at the concrete failing primitive and
buffer `[3]`. -/
theorem C7_amended_null_return_witness :
    pg_bgzip_gzip_compress failGzipLib (some [3]) (some 6) = .ok none :=
  C7_amended_null_return failGzipLib [3] 6 (by decide) (Or.inr (by decide))

/-- C8 counterexample: with a primitive whose raw-deflate always fails, on
input `[7, 8]` the failing chunk starts at byte offset `0`, yet the raised
error reports position `2` (the bytes remaining), not the starting offset. -/
theorem C8_counterexample :
    pg_bgzip_compress failDeflateLib ⟨2, some [7, 8], some 6, none⟩ =
      .error (.blockCompressError 2) ∧
    pg_bgzip_compress failDeflateLib ⟨2, some [7, 8], some 6, none⟩ ≠
      .error (.blockCompressError 0) := by
  have hb : compressBlocksList failDeflateLib 6 [7, 8] =
      .error (.blockCompressError 2) := by
    rw [compressBlocksList_cons failDeflateLib 6 [7, 8] (by decide)]
    rfl
  have h : pg_bgzip_compress failDeflateLib ⟨2, some [7, 8], some 6, none⟩ =
      .error (.blockCompressError 2) := by
    simp [pg_bgzip_compress, hb]
  refine ⟨h, fun he => ?_⟩
  rw [h] at he
  exact absurd (Except.error.inj he) (by decide)

/-- C8 amended: when the block loop fails, the reported position `p` is the
number of input bytes not yet consumed — i.e. `len(B) − offset` where
`offset` (a multiple of `0xff00`) is the starting byte offset of the failing
chunk — not the starting offset itself. -/
theorem C8_amended_position (lib : DeflateLib) (L : Int) (B : List Nat) (p : Nat)
    (h : pg_bgzip_compress lib ⟨2, some B, some L, none⟩ =
      .error (.blockCompressError p)) :
    ∃ off, off % BGZIP_BLOCK_SIZE = 0 ∧ off + p = B.length ∧ 0 < p ∧
      bgzip_compress_block lib BGZIP_MAX_BLOCK_SIZE
        ((B.drop off).take (min p BGZIP_BLOCK_SIZE)) L = none := by
  by_cases hL : L < -1 ∨ L > 9
  · simp [pg_bgzip_compress, hL] at h
  · simp only [pg_bgzip_compress, hL, if_false] at h
    norm_num at h
    rcases hc : compressBlocksList lib L B with e | bs
    · rw [hc] at h
      obtain rfl : e = .blockCompressError p := Except.error.inj h
      obtain ⟨p', off, hpe, hp, hoff, hsum, hfail⟩ :=
        compressBlocksList_error_spec lib L B _ hc
      obtain rfl : p = p' := by
        cases hpe
        rfl
      exact ⟨off, hoff, hsum, hp, hfail⟩
    · rw [hc] at h
      exact Except.noConfusion h

/-- C8 witness: the amended theorem at the always-failing primitive on the
one-byte buffer `[4]` (failing chunk offset `0`, reported position `1`). -/
theorem C8_amended_position_witness :
    ∃ off, off % BGZIP_BLOCK_SIZE = 0 ∧ off + 1 = ([4] : List Nat).length ∧ 0 < 1 ∧
      bgzip_compress_block failDeflateLib BGZIP_MAX_BLOCK_SIZE
        ((([4] : List Nat).drop off).take (min 1 BGZIP_BLOCK_SIZE)) 6 = none := by
  have hb : compressBlocksList failDeflateLib 6 [4] = .error (.blockCompressError 1) := by
    rw [compressBlocksList_cons failDeflateLib 6 [4] (by decide)]
    rfl
  have h : pg_bgzip_compress failDeflateLib ⟨2, some [4], some 6, none⟩ =
      .error (.blockCompressError 1) := by
    simp [pg_bgzip_compress, hb]
  exact C8_amended_position failDeflateLib 6 [4] 1 h
